import Mathlib

/-!
Verification of the retinal diabetic-retinopathy classification backend:
a shallow embedding in Lean 4 of `backend/model.py` (EfficientNetGAT) and
`backend/main.py` (the `/predict` inference service), with theorems about
the grid-edge builder, the node-feature projector, the softmax serving
layer, and the forward pass.
-/

set_option maxRecDepth 4000

namespace Backend

/-- Embedding of `EfficientNetGAT._create_grid_edges` (model.py, lines 53-68):
for every cell `(i, j)` of an `height × width` grid, enumerate its in-bounds
8-neighbors (offsets `di, dj ∈ {-1, 0, 1}`, skipping `di = dj = 0`), emitting
the directed edge `[node, neighbor]` with `node = i * width + j`. -/
def _create_grid_edges (height width : ℕ) : List (ℕ × ℕ) :=
  (List.range height).flatMap fun i =>
    (List.range width).flatMap fun j =>
      ([-1, 0, 1] : List ℤ).flatMap fun di =>
        ([-1, 0, 1] : List ℤ).flatMap fun dj =>
          if di = 0 ∧ dj = 0 then []
          else
            if 0 ≤ (i : ℤ) + di ∧ (i : ℤ) + di < (height : ℤ) ∧
               0 ≤ (j : ℤ) + dj ∧ (j : ℤ) + dj < (width : ℤ) then
              [(i * width + j, ((i : ℤ) + di).toNat * width + ((j : ℤ) + dj).toNat)]
            else []

/-- `self.num_nodes = 49` (model.py, line 24): the fixed 7×7 node grid. -/
def num_nodes : ℕ := 49

/-- `self.node_feat_dim = self.feature_dim // self.num_nodes` (model.py, line 25):
truncating integer division of the backbone embedding width by the node count. -/
def node_feat_dim (feature_dim : ℕ) : ℕ := feature_dim / num_nodes

/-- Output width of `self.transform = nn.Linear(feature_dim, num_nodes * node_feat_dim)`
(model.py, line 28). -/
def transform_out_features (feature_dim : ℕ) : ℕ := num_nodes * node_feat_dim feature_dim

/-- Proof-infrastructure view of the innermost loop body of `_create_grid_edges`:
the (empty or singleton) edge list contributed by cell `(i, j)` and offset `(di, dj)`. -/
def edgeCell (height width i j : ℕ) (di dj : ℤ) : List (ℕ × ℕ) :=
  if di = 0 ∧ dj = 0 then []
  else
    if 0 ≤ (i : ℤ) + di ∧ (i : ℤ) + di < (height : ℤ) ∧
       0 ≤ (j : ℤ) + dj ∧ (j : ℤ) + dj < (width : ℤ) then
      [(i * width + j, ((i : ℤ) + di).toNat * width + ((j : ℤ) + dj).toNat)]
    else []

/-- The edges contributed by cell `(i, j)` for a fixed row offset `di`. -/
def offsetBlock (height width i j : ℕ) (di : ℤ) : List (ℕ × ℕ) :=
  ([-1, 0, 1] : List ℤ).flatMap (edgeCell height width i j di)

/-- All edges contributed by cell `(i, j)`. -/
def cellBlock (height width i j : ℕ) : List (ℕ × ℕ) :=
  ([-1, 0, 1] : List ℤ).flatMap (offsetBlock height width i j)

/-- Strict lexicographic order on directed edges, the order in which
`_create_grid_edges` emits them. -/
def lexLt (p q : ℕ × ℕ) : Prop := p.1 < q.1 ∨ (p.1 = q.1 ∧ p.2 < q.2)

/-- `CLASS_NAMES` (main.py, line 39): the fixed 5 severity labels. -/
def CLASS_NAMES : List String := ["No DR", "Mild", "Moderate", "Severe", "Proliferative"]

/-- Embedding of `F.softmax(x, dim=0)` on a 1-D tensor (main.py, line 57), in
exact real arithmetic: each entry `z` becomes `exp z` divided by the sum of the
exponentials of all entries. -/
noncomputable def softmax (l : List ℝ) : List ℝ :=
  l.map fun z => Real.exp z / (l.map Real.exp).sum

/-- Embedding of `torch.max(x, 0)` on a 1-D tensor (main.py, line 58): the pair
of the maximum value and the index of its first occurrence. -/
noncomputable def torchMax : List ℝ → ℝ × ℕ
  | [] => (0, 0)
  | [x] => (x, 0)
  | x :: y :: t =>
      if x < (torchMax (y :: t)).1 then ((torchMax (y :: t)).1, (torchMax (y :: t)).2 + 1)
      else (x, 0)

/-- Python list indexing `l[i]` with a nonnegative index: returns the element,
or raises `IndexError("list index out of range")` when out of bounds. -/
def pythonIndex {α : Type _} (l : List α) (i : ℕ) : Except String α :=
  if h : i < l.length then Except.ok (l.get ⟨i, h⟩)
  else Except.error "list index out of range"

/-- The JSON body returned by a successful `/predict` call (main.py, lines 60-66). -/
structure PredictResponse where
  «class» : ℕ
  class_name : String
  confidence : ℝ
  probabilities : List ℝ
  class_names : List String

/-- The post-inference part of the `predict` handler (main.py, lines 57-66),
starting from `output[0]`, the model's row of `num_classes = 5` logits:
softmax over the row, `torch.max` for confidence and predicted class, lookup of
`CLASS_NAMES[predicted_class]` (which would raise if out of range), and the
response record. -/
noncomputable def predict (logits : ℕ → ℝ) : Except String PredictResponse :=
  let output0 : List ℝ := (List.range 5).map logits
  let probabilities := softmax output0
  let cm := torchMax probabilities
  match pythonIndex CLASS_NAMES cm.2 with
  | Except.error e => Except.error e
  | Except.ok name =>
      Except.ok { «class» := cm.2, class_name := name, confidence := cm.1,
                  probabilities := probabilities, class_names := CLASS_NAMES }

/-- Outcome of one `/predict` request as seen by the HTTP client. -/
inductive HandlerResult where
  | success : ℕ → PredictResponse → HandlerResult
  | httpError : ℕ → String → HandlerResult

/-- The top-level `try/except` of the `predict` handler (main.py, lines 44-68):
the try block (decode, preprocess, inference, response building) either returns
a response, serialized with status 200, or raises an exception `e`, which the
`except Exception` clause converts into `HTTPException(status_code=400,
detail=str(e))`. The `Except.error` payload is the exception's string
representation `str(e)`. -/
def predictHandler (tryBody : Except String PredictResponse) : HandlerResult :=
  match tryBody with
  | Except.ok r => HandlerResult.success 200 r
  | Except.error e => HandlerResult.httpError 400 e

/-- `F.elu` (model.py, line 85). -/
noncomputable def elu (x : ℝ) : ℝ := if 0 ≤ x then x else Real.exp x - 1

/-- `F.dropout(x, p=0.2, training=self.training)` (model.py, line 86) on one
entry: the identity unless in training mode; in training mode the entry is
multiplied by its realized (inverted-scaling) Bernoulli mask draw. -/
noncomputable def dropout (training : Bool) (mask x : ℝ) : ℝ :=
  if training then mask * x else x

/-- `F.leaky_relu` with the given negative slope, used inside GATv2 attention. -/
noncomputable def leaky_relu (slope x : ℝ) : ℝ := if 0 ≤ x then x else slope * x

/-- Parameters of one `torch_geometric.nn.GATv2Conv` layer (model.py,
lines 31-45): per-head source/target linear maps (indexed head, output channel,
input channel), per-head attention vector, output bias, head count, channel
widths, the concat-vs-average flag, and the attention-dropout probability. -/
structure GATv2ConvParams where
  in_channels : ℕ
  out_channels : ℕ
  heads : ℕ
  concat : Bool
  dropout_p : ℝ
  negative_slope : ℝ
  lin_l : ℕ → ℕ → ℕ → ℝ
  lin_r : ℕ → ℕ → ℕ → ℝ
  att : ℕ → ℕ → ℝ
  bias : ℕ → ℝ

/-- Source endpoints of the directed edges entering node `i` (the neighbors a
GATv2 layer aggregates over at `i`), in edge-list order. -/
def sourceNodes (edges : List (ℕ × ℕ)) (i : ℕ) : List ℕ :=
  (edges.filter fun e => e.2 == i).map fun e => e.1

/-- Unnormalized GATv2 attention score
`e(i,j) = attᵀ · LeakyReLU(lin_l · x_i + lin_r · x_j)` for head `h`,
target node features `xi` and source node features `xj`. -/
noncomputable def gatScore (P : GATv2ConvParams) (h : ℕ) (xi xj : ℕ → ℝ) : ℝ :=
  ∑ k ∈ Finset.range P.out_channels, P.att h k *
    leaky_relu P.negative_slope
      ((∑ c ∈ Finset.range P.in_channels, P.lin_l h k c * xi c) +
       (∑ c ∈ Finset.range P.in_channels, P.lin_r h k c * xj c))

/-- One `GATv2Conv` layer on node features `x` over the given edge list: per
head, softmax the attention scores over the in-neighbors of each node, apply
attention dropout to the normalized coefficients only in training mode
(`attMask h i j` is the realized mask draw for head `h` and edge `j → i`),
aggregate the transformed source features, then either concatenate the heads
(`concat = true`) or average them. -/
noncomputable def gatv2conv (P : GATv2ConvParams) (training : Bool)
    (attMask : ℕ → ℕ → ℕ → ℝ) (edges : List (ℕ × ℕ)) (x : ℕ → ℕ → ℝ) : ℕ → ℕ → ℝ :=
  fun i o =>
    let headOut : ℕ → ℕ → ℝ := fun h k =>
      ((sourceNodes edges i).map fun j =>
        (if training then attMask h i j else 1) *
          (Real.exp (gatScore P h (x i) (x j)) /
            ((sourceNodes edges i).map fun u => Real.exp (gatScore P h (x i) (x u))).sum) *
          (∑ c ∈ Finset.range P.in_channels, P.lin_r h k c * x j c)).sum
    if P.concat then P.bias o + headOut (o / P.out_channels) (o % P.out_channels)
    else P.bias o + (∑ h ∈ Finset.range P.heads, headOut h o) / (P.heads : ℝ)

/-- Learned state of `EfficientNetGAT` (model.py, lines 7-51), over an abstract
image type: the configuration constants, the (eval-mode) EfficientNetV2-S
backbone as a function from an image to its 1280-wide embedding, the `transform`
linear layer, the weights of the two `GATv2Conv` layers, and the `fc` head. -/
structure EfficientNetGATParams (Image : Type _) where
  num_classes : ℕ
  gat_hidden_dim : ℕ
  num_heads : ℕ
  feature_dim : ℕ
  efficientnet : Image → ℕ → ℝ
  transform_weight : ℕ → ℕ → ℝ
  transform_bias : ℕ → ℝ
  gat1_lin_l : ℕ → ℕ → ℕ → ℝ
  gat1_lin_r : ℕ → ℕ → ℕ → ℝ
  gat1_att : ℕ → ℕ → ℝ
  gat1_bias : ℕ → ℝ
  gat2_lin_l : ℕ → ℕ → ℕ → ℝ
  gat2_lin_r : ℕ → ℕ → ℕ → ℝ
  gat2_att : ℕ → ℕ → ℝ
  gat2_bias : ℕ → ℝ
  fc_weight : ℕ → ℕ → ℝ
  fc_bias : ℕ → ℝ

/-- `self.gat1` (model.py, lines 31-37): `num_heads` heads of width
`gat_hidden_dim // num_heads`, concatenated, attention dropout 0.2. -/
noncomputable def gat1 {Image : Type _} (M : EfficientNetGATParams Image) : GATv2ConvParams :=
  { in_channels := node_feat_dim M.feature_dim
    out_channels := M.gat_hidden_dim / M.num_heads
    heads := M.num_heads
    concat := true
    dropout_p := 0.2
    negative_slope := 0.2
    lin_l := M.gat1_lin_l
    lin_r := M.gat1_lin_r
    att := M.gat1_att
    bias := M.gat1_bias }

/-- `self.gat2` (model.py, lines 39-45): a single head of width
`gat_hidden_dim`, averaged (`concat=False`), attention dropout 0.2. -/
noncomputable def gat2 {Image : Type _} (M : EfficientNetGATParams Image) : GATv2ConvParams :=
  { in_channels := M.gat_hidden_dim
    out_channels := M.gat_hidden_dim
    heads := 1
    concat := false
    dropout_p := 0.2
    negative_slope := 0.2
    lin_l := M.gat2_lin_l
    lin_r := M.gat2_lin_r
    att := M.gat2_att
    bias := M.gat2_bias }

/-- The realized dropout randomness of one sample's pass through the
graph-attention stack: attention-mask draws for each GAT layer and the mask of
the inter-layer functional dropout. -/
structure SampleRandomness where
  att1 : ℕ → ℕ → ℕ → ℝ
  drop : ℕ → ℕ → ℝ
  att2 : ℕ → ℕ → ℕ → ℝ

/-- `self.transform(cnn_features)` for one sample (model.py, line 77). -/
noncomputable def transform {Image : Type _} (M : EfficientNetGATParams Image)
    (v : ℕ → ℝ) : ℕ → ℝ :=
  fun o => M.transform_bias o + ∑ c ∈ Finset.range M.feature_dim, M.transform_weight o c * v c

/-- `transformed.view(batch_size, 49, node_feat_dim)` for one sample
(model.py, line 78): node `n`'s feature `k` is entry `n * node_feat_dim + k`
of the transformed embedding. -/
def node_features {Image : Type _} (M : EfficientNetGATParams Image)
    (t : ℕ → ℝ) : ℕ → ℕ → ℝ :=
  fun n k => t (n * node_feat_dim M.feature_dim + k)

/-- The per-sample loop of `EfficientNetGAT.forward` (model.py, lines 81-90):
for each sample index `i` in `range(batch_size)`, run `gat1`, `F.elu`,
`F.dropout(p=0.2, training)`, `gat2` on that sample's node features over the
fixed 7×7 grid edges, collecting the per-sample graph embeddings in batch
order (the subsequent `torch.stack`). -/
noncomputable def forward_graph_embeddings {Image : Type _}
    (M : EfficientNetGATParams Image) (training : Bool)
    (R : ℕ → SampleRandomness) (batch_size : ℕ) (x : ℕ → Image) :
    List (ℕ → ℕ → ℝ) :=
  (List.range batch_size).map fun i =>
    let nf := node_features M (transform M (M.efficientnet (x i)))
    let x_gat1 := gatv2conv (gat1 M) training (R i).att1 (_create_grid_edges 7 7) nf
    let x_act := fun n k => elu (x_gat1 n k)
    let x_drop := fun n k => dropout training ((R i).drop n k) (x_act n k)
    gatv2conv (gat2 M) training (R i).att2 (_create_grid_edges 7 7) x_drop

/-- `EfficientNetGAT.forward` (model.py, lines 70-101): backbone features,
`transform` + reshape to node features, the per-sample graph-attention loop,
concatenation of projected and graph features, mean pooling over the 49 nodes,
and the final `fc` layer; `forward M training R batch_size x b o` is logit `o`
of batch row `b`. -/
noncomputable def forward {Image : Type _} (M : EfficientNetGATParams Image)
    (training : Bool) (R : ℕ → SampleRandomness) (batch_size : ℕ)
    (x : ℕ → Image) : ℕ → ℕ → ℝ :=
  fun b o =>
    let nf := node_features M (transform M (M.efficientnet (x b)))
    let ge := (forward_graph_embeddings M training R batch_size x).getD b fun _ _ => 0
    let combined := fun n idx =>
      if idx < node_feat_dim M.feature_dim then nf n idx
      else ge n (idx - node_feat_dim M.feature_dim)
    let pooled := fun idx =>
      (∑ n ∈ Finset.range num_nodes, combined n idx) / (num_nodes : ℝ)
    M.fc_bias o + ∑ c ∈ Finset.range (node_feat_dim M.feature_dim + M.gat_hidden_dim),
      M.fc_weight o c * pooled c

/-- Modelled from the spec (§4.3, §9): the single-sample graph-attention
pipeline that batched processing must match — multi-head layer 1 with
concatenated heads, ELU activation, inter-layer dropout applied only in
training mode, then single-head layer 2, over the static 8-neighbor grid
adjacency, on one sample's node features alone. -/
noncomputable def single_sample_gat {Image : Type _} (M : EfficientNetGATParams Image)
    (training : Bool) (Ri : SampleRandomness) (nf : ℕ → ℕ → ℝ) : ℕ → ℕ → ℝ :=
  gatv2conv (gat2 M) training Ri.att2 (_create_grid_edges 7 7) fun n k =>
    dropout training (Ri.drop n k)
      (elu (gatv2conv (gat1 M) training Ri.att1 (_create_grid_edges 7 7) nf n k))

end Backend

namespace Backend

lemma create_grid_edges_eq (height width : ℕ) :
    _create_grid_edges height width =
      (List.range height).flatMap fun i =>
        (List.range width).flatMap fun j => cellBlock height width i j := rfl

/-- Characterization of membership in the grid-edge list: `(u, v)` is an edge
iff `u` and `v` are the row-major indices of two distinct cells whose row and
column coordinates each differ by at most 1 and which lie inside the grid. -/
lemma mem_create_grid_edges {height width u v : ℕ} :
    (u, v) ∈ _create_grid_edges height width ↔
      ∃ i j ni nj : ℕ, i < height ∧ j < width ∧ ni < height ∧ nj < width ∧
        (i : ℤ) - ni ≤ 1 ∧ (ni : ℤ) - i ≤ 1 ∧ (j : ℤ) - nj ≤ 1 ∧ (nj : ℤ) - j ≤ 1 ∧
        ¬(i = ni ∧ j = nj) ∧ u = i * width + j ∧ v = ni * width + nj := by
  constructor
  · intro h
    simp only [_create_grid_edges, List.mem_flatMap, List.mem_range, List.mem_cons,
      List.not_mem_nil, or_false] at h
    obtain ⟨i, hi, j, hj, di, hdi, dj, hdj, hmem⟩ := h
    split_ifs at hmem with h1 h2
    · exact absurd hmem (List.not_mem_nil _)
    · simp only [List.mem_singleton, Prod.mk.injEq] at hmem
      obtain ⟨hu, hv⟩ := hmem
      refine ⟨i, j, ((i : ℤ) + di).toNat, ((j : ℤ) + dj).toNat, hi, hj, ?_, ?_, ?_, ?_,
        ?_, ?_, ?_, hu, hv⟩ <;> omega
    · exact absurd hmem (List.not_mem_nil _)
  · rintro ⟨i, j, ni, nj, hi, hj, hni, hnj, h1, h2, h3, h4, hne, hu, hv⟩
    simp only [_create_grid_edges, List.mem_flatMap, List.mem_range, List.mem_cons,
      List.not_mem_nil, or_false]
    refine ⟨i, hi, j, hj, (ni : ℤ) - i, by omega, (nj : ℤ) - j, by omega, ?_⟩
    rw [if_neg (by omega), if_pos (by omega)]
    have hni' : ((i : ℤ) + ((ni : ℤ) - i)).toNat = ni := by omega
    have hnj' : ((j : ℤ) + ((nj : ℤ) - j)).toNat = nj := by omega
    simp only [hni', hnj', List.mem_singleton, Prod.mk.injEq]
    exact ⟨hu, hv⟩

/-- A `flatMap` is pairwise-`R` when every block is and blocks are pairwise
cross-related. -/
lemma pairwise_flatMap {α β : Type _} {R : β → β → Prop} {l : List α} {f : α → List β}
    (h1 : ∀ a ∈ l, (f a).Pairwise R)
    (h2 : l.Pairwise fun a b => ∀ x ∈ f a, ∀ y ∈ f b, R x y) :
    (l.flatMap f).Pairwise R := by
  induction l with
  | nil => simp
  | cons a t ih =>
    rw [List.flatMap_cons, List.pairwise_append]
    rw [List.pairwise_cons] at h2
    refine ⟨h1 a (List.mem_cons_self a t),
      ih (fun b hb => h1 b (List.mem_cons_of_mem a hb)) h2.2, ?_⟩
    intro x hx y hy
    obtain ⟨b, hb, hyb⟩ := List.mem_flatMap.mp hy
    exact h2.1 b hb x hx y hyb

lemma rowmajor_lt {a b x y w : ℕ} (hab : a < b) (hx : x < w) :
    a * w + x < b * w + y :=
  calc a * w + x < a * w + w := Nat.add_lt_add_left hx _
    _ = (a + 1) * w := (Nat.succ_mul a w).symm
    _ ≤ b * w := Nat.mul_le_mul_right w hab
    _ ≤ b * w + y := Nat.le_add_right _ _

lemma mem_edgeCell {height width i j : ℕ} {di dj : ℤ} {p : ℕ × ℕ}
    (hp : p ∈ edgeCell height width i j di dj) :
    0 ≤ (i : ℤ) + di ∧ (i : ℤ) + di < (height : ℤ) ∧
    0 ≤ (j : ℤ) + dj ∧ (j : ℤ) + dj < (width : ℤ) ∧
    p = (i * width + j, ((i : ℤ) + di).toNat * width + ((j : ℤ) + dj).toNat) := by
  unfold edgeCell at hp
  split_ifs at hp with h1 h2
  · exact absurd hp (List.not_mem_nil _)
  · simp only [List.mem_singleton] at hp
    exact ⟨h2.1, h2.2.1, h2.2.2.1, h2.2.2.2, hp⟩
  · exact absurd hp (List.not_mem_nil _)

lemma mem_offsetBlock {height width i j : ℕ} {di : ℤ} {p : ℕ × ℕ}
    (hp : p ∈ offsetBlock height width i j di) :
    ∃ ni nj : ℕ, (ni : ℤ) = (i : ℤ) + di ∧ nj < width ∧
      p = (i * width + j, ni * width + nj) := by
  obtain ⟨dj, _, hcell⟩ := List.mem_flatMap.mp hp
  obtain ⟨hb1, hb2, hb3, hb4, hpeq⟩ := mem_edgeCell hcell
  exact ⟨((i : ℤ) + di).toNat, ((j : ℤ) + dj).toNat, by omega, by omega, hpeq⟩

lemma mem_cellBlock {height width i j : ℕ} {p : ℕ × ℕ}
    (hp : p ∈ cellBlock height width i j) : p.1 = i * width + j := by
  obtain ⟨di, _, hblock⟩ := List.mem_flatMap.mp hp
  obtain ⟨ni, nj, _, _, hpeq⟩ := mem_offsetBlock hblock
  rw [hpeq]

lemma edgeCell_cross {height width i j : ℕ} {di dj dj' : ℤ} (hlt : dj < dj') :
    ∀ x ∈ edgeCell height width i j di dj,
      ∀ y ∈ edgeCell height width i j di dj', lexLt x y := by
  intro x hx y hy
  obtain ⟨hx1, hx2, hx3, hx4, hxeq⟩ := mem_edgeCell hx
  obtain ⟨hy1, hy2, hy3, hy4, hyeq⟩ := mem_edgeCell hy
  rw [hxeq, hyeq]
  refine Or.inr ⟨rfl, Nat.add_lt_add_left ?_ _⟩
  omega

lemma offsetBlock_cross {height width i j : ℕ} {di di' : ℤ} (hlt : di < di') :
    ∀ x ∈ offsetBlock height width i j di,
      ∀ y ∈ offsetBlock height width i j di', lexLt x y := by
  intro x hx y hy
  obtain ⟨ni, nj, hni, hnj, hxeq⟩ := mem_offsetBlock hx
  obtain ⟨ni', nj', hni', hnj', hyeq⟩ := mem_offsetBlock hy
  rw [hxeq, hyeq]
  exact Or.inr ⟨rfl, rowmajor_lt (by omega) hnj⟩

lemma offsets_pairwise_lt : (([-1, 0, 1] : List ℤ)).Pairwise (· < ·) := by decide

lemma cellBlock_pairwise (height width i j : ℕ) :
    (cellBlock height width i j).Pairwise lexLt := by
  unfold cellBlock
  apply pairwise_flatMap
  · intro di _
    unfold offsetBlock
    apply pairwise_flatMap
    · intro dj _
      unfold edgeCell
      split_ifs <;> simp
    · exact offsets_pairwise_lt.imp fun hab => edgeCell_cross hab
  · exact offsets_pairwise_lt.imp fun hab => offsetBlock_cross hab

lemma cellBlock_cross_col {height width i : ℕ} {j j' : ℕ} (hlt : j < j') :
    ∀ x ∈ cellBlock height width i j,
      ∀ y ∈ cellBlock height width i j', lexLt x y := by
  intro x hx y hy
  have hx1 := mem_cellBlock hx
  have hy1 := mem_cellBlock hy
  exact Or.inl (by rw [hx1, hy1]; exact Nat.add_lt_add_left hlt _)

lemma cellBlock_cross_row {height width : ℕ} {i i' : ℕ} (hlt : i < i') :
    ∀ x ∈ (List.range width).flatMap fun j => cellBlock height width i j,
      ∀ y ∈ (List.range width).flatMap fun j => cellBlock height width i' j,
        lexLt x y := by
  intro x hx y hy
  obtain ⟨j, hj, hxc⟩ := List.mem_flatMap.mp hx
  obtain ⟨j', hj', hyc⟩ := List.mem_flatMap.mp hy
  have hx1 := mem_cellBlock hxc
  have hy1 := mem_cellBlock hyc
  exact Or.inl (by rw [hx1, hy1]; exact rowmajor_lt hlt (List.mem_range.mp hj))

lemma create_grid_edges_pairwise (height width : ℕ) :
    (_create_grid_edges height width).Pairwise lexLt := by
  rw [create_grid_edges_eq]
  apply pairwise_flatMap
  · intro i _
    apply pairwise_flatMap
    · intro j _
      exact cellBlock_pairwise height width i j
    · exact (List.pairwise_lt_range width).imp fun hab => cellBlock_cross_col hab
  · exact (List.pairwise_lt_range height).imp fun hab => cellBlock_cross_row hab

lemma sum_map_div (m : List ℝ) (s : ℝ) : (m.map fun z => z / s).sum = m.sum / s := by
  induction m with
  | nil => simp
  | cons x t ih => simp [ih, add_div]

lemma sum_exp_pos (l : List ℝ) (h : l ≠ []) : 0 < (l.map Real.exp).sum := by
  cases l with
  | nil => exact absurd rfl h
  | cons x t =>
    simp only [List.map_cons, List.sum_cons]
    have h1 : 0 ≤ (t.map Real.exp).sum := by
      apply List.sum_nonneg
      intro a ha
      obtain ⟨z, _, rfl⟩ := List.mem_map.mp ha
      exact (Real.exp_pos z).le
    linarith [Real.exp_pos x]

lemma softmax_length (l : List ℝ) : (softmax l).length = l.length := by
  simp [softmax]

lemma softmax_nonneg (l : List ℝ) : ∀ q ∈ softmax l, 0 ≤ q := by
  intro q hq
  obtain ⟨z, hz, rfl⟩ := List.mem_map.mp hq
  exact div_nonneg (Real.exp_pos z).le (sum_exp_pos l (List.ne_nil_of_mem hz)).le

lemma softmax_sum (l : List ℝ) (h : l ≠ []) : (softmax l).sum = 1 := by
  unfold softmax
  have hcomp : (l.map fun z => Real.exp z / (l.map Real.exp).sum) =
      ((l.map Real.exp).map fun z => z / (l.map Real.exp).sum) := by
    rw [List.map_map]
    rfl
  rw [hcomp, sum_map_div]
  exact div_self (ne_of_gt (sum_exp_pos l h))

lemma torchMax_snd_lt (l : List ℝ) (h : l ≠ []) : (torchMax l).2 < l.length := by
  induction l with
  | nil => exact absurd rfl h
  | cons x t ih =>
    cases t with
    | nil => simp [torchMax]
    | cons y t' =>
      simp only [torchMax]
      split_ifs
      · have h2 := ih (List.cons_ne_nil y t')
        simp only [List.length_cons] at h2 ⊢
        omega
      · simp

lemma torchMax_fst_ge (l : List ℝ) : ∀ q ∈ l, q ≤ (torchMax l).1 := by
  induction l with
  | nil => intro q hq; cases hq
  | cons x t ih =>
    cases t with
    | nil =>
      intro q hq
      rw [List.mem_singleton] at hq
      subst hq
      simp [torchMax]
    | cons y t' =>
      intro q hq
      rw [List.mem_cons] at hq
      simp only [torchMax]
      split_ifs with hlt
      · rcases hq with rfl | hq
        · exact le_of_lt hlt
        · exact ih q hq
      · rcases hq with rfl | hq
        · exact le_refl q
        · exact le_trans (ih q hq) (not_lt.mp hlt)

lemma torchMax_get (l : List ℝ) (h : l ≠ []) :
    l.get? (torchMax l).2 = some (torchMax l).1 := by
  induction l with
  | nil => exact absurd rfl h
  | cons x t ih =>
    cases t with
    | nil => simp [torchMax]
    | cons y t' =>
      simp only [torchMax]
      split_ifs
      · simpa using ih (List.cons_ne_nil y t')
      · simp

lemma CLASS_NAMES_length : CLASS_NAMES.length = 5 := by decide

/-- The success path of `predict`: for every row of 5 logits the handler builds
a response whose fields are softmax probabilities, the `torch.max` value and
index, and the class-name lookup at that index. -/
lemma predict_spec (logits : ℕ → ℝ) :
    ∃ r : PredictResponse, predict logits = Except.ok r ∧
      r.probabilities = softmax ((List.range 5).map logits) ∧
      r.confidence = (torchMax r.probabilities).1 ∧
      r.«class» = (torchMax r.probabilities).2 ∧
      r.class_names = CLASS_NAMES ∧
      CLASS_NAMES.get? r.«class» = some r.class_name := by
  have hlen : (softmax ((List.range 5).map logits)).length = 5 := by
    rw [softmax_length, List.length_map, List.length_range]
  have hne : softmax ((List.range 5).map logits) ≠ [] := by
    intro h0
    rw [h0] at hlen
    cases hlen
  have hidx : (torchMax (softmax ((List.range 5).map logits))).2 < CLASS_NAMES.length := by
    rw [CLASS_NAMES_length, ← hlen]
    exact torchMax_snd_lt _ hne
  have hpy : pythonIndex CLASS_NAMES (torchMax (softmax ((List.range 5).map logits))).2 =
      Except.ok (CLASS_NAMES.get ⟨_, hidx⟩) := dif_pos hidx
  have hpred : predict logits = Except.ok
      { «class» := (torchMax (softmax ((List.range 5).map logits))).2,
        class_name := CLASS_NAMES.get ⟨_, hidx⟩,
        confidence := (torchMax (softmax ((List.range 5).map logits))).1,
        probabilities := softmax ((List.range 5).map logits),
        class_names := CLASS_NAMES } := by
    unfold predict
    dsimp only
    rw [hpy]
  exact ⟨_, hpred, rfl, rfl, rfl, rfl, (List.get?_eq_get hidx).trans rfl⟩

/-- In evaluation mode a GATv2 layer ignores the attention-dropout mask. -/
lemma gatv2conv_eval_mask_irrel (P : GATv2ConvParams) (m m' : ℕ → ℕ → ℕ → ℝ)
    (edges : List (ℕ × ℕ)) (x : ℕ → ℕ → ℝ) :
    gatv2conv P false m edges x = gatv2conv P false m' edges x := by
  funext i o
  unfold gatv2conv
  simp

/-- In evaluation mode `F.dropout` is the identity. -/
lemma dropout_eval (m x : ℝ) : dropout false m x = x := by
  simp [dropout]

/-- In evaluation mode the per-sample graph-attention loop is independent of
the realized dropout randomness. -/
lemma forward_graph_embeddings_eval_rand_irrel {Image : Type _}
    (M : EfficientNetGATParams Image) (R R' : ℕ → SampleRandomness)
    (batch_size : ℕ) (x : ℕ → Image) :
    forward_graph_embeddings M false R batch_size x =
      forward_graph_embeddings M false R' batch_size x := by
  unfold forward_graph_embeddings
  apply List.map_congr_left
  intro i _
  dsimp only
  simp only [dropout_eval]
  rw [gatv2conv_eval_mask_irrel (gat1 M) (R i).att1 (R' i).att1]
  rw [gatv2conv_eval_mask_irrel (gat2 M) (R i).att2 (R' i).att2]

end Backend

/-- C3: the grid-edge builder at height 7 and width 7 produces an edge list with
no self-loops whose length is 312, the sum over all 49 cells of their in-bounds
8-neighbor counts (4 corners × 3 + 20 border cells × 5 + 25 interior cells × 8). -/
theorem create_grid_edges_7_7_no_self_loops_and_count :
    (Backend._create_grid_edges 7 7).length = 4 * 3 + 20 * 5 + 25 * 8 ∧
    (Backend._create_grid_edges 7 7).all (fun e => e.1 != e.2) = true := by
  decide

/-- C4: `node_feat_dim` is the truncating division of the backbone embedding
width by the 49 grid nodes, and the projector's output width is exactly
`49 * node_feat_dim`, discarding the remainder `feature_dim % 49`; at the
reference width 1280 this gives 26 features per node and drops 6 of the 1280
dimensions. -/
theorem node_feat_dim_truncates :
    Backend.node_feat_dim 1280 = 26 ∧
    Backend.transform_out_features 1280 = 49 * 26 ∧
    1280 - Backend.transform_out_features 1280 = 6 ∧
    ∀ feature_dim : ℕ,
      Backend.transform_out_features feature_dim = feature_dim - feature_dim % 49 := by
  refine ⟨by decide, by decide, by decide, fun d => ?_⟩
  simp only [Backend.transform_out_features, Backend.node_feat_dim, Backend.num_nodes]
  omega

/-- C8: for every grid height and width, the edge list produced by the grid-edge
builder is symmetric: whenever it contains the directed edge `(u, v)`, it also
contains the reversed edge `(v, u)`. -/
theorem create_grid_edges_symm (height width u v : ℕ)
    (h : (u, v) ∈ Backend._create_grid_edges height width) :
    (v, u) ∈ Backend._create_grid_edges height width := by
  rw [Backend.mem_create_grid_edges] at h ⊢
  obtain ⟨i, j, ni, nj, hi, hj, hni, hnj, h1, h2, h3, h4, hne, hu, hv⟩ := h
  exact ⟨ni, nj, i, j, hni, hnj, hi, hj, by omega, by omega, by omega, by omega,
    by omega, hv, hu⟩

/-- Witness for C8: the concrete edge `(0, 1)` of the 7×7 grid is in the list,
and applying the symmetry theorem to it yields the reversed edge `(1, 0)`. -/
theorem create_grid_edges_symm_witness :
    (0, 1) ∈ Backend._create_grid_edges 7 7 ∧ (1, 0) ∈ Backend._create_grid_edges 7 7 :=
  ⟨by decide, create_grid_edges_symm 7 7 0 1 (by decide)⟩

/-- C9: for every grid height and width, the edge list produced by the grid-edge
builder contains no duplicates: each directed edge appears exactly once. -/
theorem create_grid_edges_nodup (height width : ℕ) :
    (Backend._create_grid_edges height width).Nodup := by
  have hp := Backend.create_grid_edges_pairwise height width
  exact hp.imp fun hr => by
    rcases hr with h | ⟨h1, h2⟩
    · exact fun heq => absurd (congrArg Prod.fst heq) (Nat.ne_of_lt h)
    · exact fun heq => absurd (congrArg Prod.snd heq) (Nat.ne_of_lt h2)

/-- C1: for every row of model logits, the `/predict` response is built, its
`probabilities` vector has exactly 5 entries, every entry is non-negative,
the entries sum exactly to 1 (softmax in exact real arithmetic), and the
`confidence` field lies in `[0, 1]`. -/
theorem predict_probabilities_valid (logits : ℕ → ℝ) :
    ∃ r : Backend.PredictResponse, Backend.predict logits = Except.ok r ∧
      r.probabilities.length = 5 ∧
      (∀ q ∈ r.probabilities, 0 ≤ q) ∧
      r.probabilities.sum = 1 ∧
      0 ≤ r.confidence ∧ r.confidence ≤ 1 := by
  obtain ⟨r, hok, hp, hc, hcls, hnames, hget⟩ := Backend.predict_spec logits
  have hlen5 : r.probabilities.length = 5 := by
    rw [hp, Backend.softmax_length]
    simp
  have hne : r.probabilities ≠ [] := fun h0 => by simp [h0] at hlen5
  have hnn : ∀ q ∈ r.probabilities, 0 ≤ q := by
    rw [hp]
    exact Backend.softmax_nonneg _
  have hsum : r.probabilities.sum = 1 := by
    rw [hp]
    exact Backend.softmax_sum _ (by simp)
  have hconf_mem : r.confidence ∈ r.probabilities := by
    rw [hc]
    exact List.get?_mem (Backend.torchMax_get _ hne)
  refine ⟨r, hok, hlen5, hnn, hsum, hnn _ hconf_mem, ?_⟩
  have hle := List.single_le_sum hnn _ hconf_mem
  rw [hsum] at hle
  exact hle

/-- C2: for every row of model logits, the `/predict` response satisfies:
the `probabilities` entry at index `class` is exactly `confidence`,
`confidence` is an upper bound of all probability entries (so `class` is an
index of the maximum), `class_name` is the entry of `class_names` at index
`class`, and `class_names` is the fixed 5-label list. -/
theorem predict_class_is_argmax (logits : ℕ → ℝ) :
    ∃ r : Backend.PredictResponse, Backend.predict logits = Except.ok r ∧
      r.probabilities.get? r.«class» = some r.confidence ∧
      (∀ q ∈ r.probabilities, q ≤ r.confidence) ∧
      r.class_names.get? r.«class» = some r.class_name ∧
      r.class_names = Backend.CLASS_NAMES := by
  obtain ⟨r, hok, hp, hc, hcls, hnames, hget⟩ := Backend.predict_spec logits
  have hlen5 : r.probabilities.length = 5 := by
    rw [hp, Backend.softmax_length]
    simp
  have hne : r.probabilities ≠ [] := fun h0 => by simp [h0] at hlen5
  refine ⟨r, hok, ?_, ?_, ?_, hnames⟩
  · rw [hcls, hc]
    exact Backend.torchMax_get _ hne
  · rw [hc]
    exact Backend.torchMax_fst_ge _
  · rw [hnames]
    exact hget

/-- C10: for every row of model logits, the predicted class index in the
`/predict` response lies in `{0,...,4}`, hence within bounds of the fixed
5-entry class-name list, and `class_name` is one of the 5 fixed labels. -/
theorem predict_class_in_bounds (logits : ℕ → ℝ) :
    ∃ r : Backend.PredictResponse, Backend.predict logits = Except.ok r ∧
      r.«class» < 5 ∧ r.«class» < Backend.CLASS_NAMES.length ∧
      r.class_name ∈ Backend.CLASS_NAMES := by
  obtain ⟨r, hok, hp, hc, hcls, hnames, hget⟩ := Backend.predict_spec logits
  have hlen5 : r.probabilities.length = 5 := by
    rw [hp, Backend.softmax_length]
    simp
  have hne : r.probabilities ≠ [] := fun h0 => by simp [h0] at hlen5
  have hidx : r.«class» < 5 := by
    rw [hcls, ← hlen5]
    exact Backend.torchMax_snd_lt _ hne
  exact ⟨r, hok, hidx, by rw [Backend.CLASS_NAMES_length]; exact hidx,
    List.get?_mem hget⟩

/-- C5 counterexample: the claim asserts the 400 `detail` string is non-empty
for every exception, but the handler copies `str(e)` verbatim; for an exception
whose string representation is empty (e.g. `Exception()` in Python), the
detail is the empty string. -/
theorem predict_handler_empty_detail_counterexample :
    Backend.predictHandler (Except.error "") = Backend.HandlerResult.httpError 400 "" := rfl

/-- C5 amended: for every exception raised in the try block of the `predict`
handler, the response is HTTP 400 — never a 200 success — with `detail` equal
to the exception's string representation verbatim (so the detail is non-empty
exactly when the exception's string representation is). -/
theorem predict_handler_exception_gives_400 (e : String) :
    Backend.predictHandler (Except.error e) = Backend.HandlerResult.httpError 400 e ∧
    ∀ (s : ℕ) (r : Backend.PredictResponse),
      Backend.predictHandler (Except.error e) ≠ Backend.HandlerResult.success s r := by
  refine ⟨rfl, fun s r h => ?_⟩
  exact Backend.HandlerResult.noConfusion h

/-- C6: with the model in evaluation mode (`training = false`, as set by
`model.eval()` in main.py line 29), the forward pass is a deterministic
function of its input: its output does not depend on the realized dropout
randomness (neither the inter-layer `F.dropout` masks nor the attention
dropout inside the two graph-attention layers), so running inference twice on
the identical input yields identical output. -/
theorem forward_eval_deterministic {Image : Type _}
    (M : Backend.EfficientNetGATParams Image)
    (R R' : ℕ → Backend.SampleRandomness) (batch_size : ℕ) (x : ℕ → Image) :
    Backend.forward M false R batch_size x = Backend.forward M false R' batch_size x := by
  unfold Backend.forward
  rw [Backend.forward_graph_embeddings_eval_rand_irrel M R R' batch_size x]

/-- C7: in the forward pass, the stacked graph-embedding list has, at every
in-range batch index `i`, exactly the result of running the single-sample
graph-attention pipeline (as the spec describes it) on sample `i`'s node
features alone, and nothing at out-of-range indices: batch samples are
processed independently, with no cross-sample edges. -/
theorem forward_graph_embeddings_per_sample {Image : Type _}
    (M : Backend.EfficientNetGATParams Image) (training : Bool)
    (R : ℕ → Backend.SampleRandomness) (batch_size : ℕ) (x : ℕ → Image) (i : ℕ) :
    (Backend.forward_graph_embeddings M training R batch_size x).get? i =
      if i < batch_size then
        some (Backend.single_sample_gat M training (R i)
          (Backend.node_features M (Backend.transform M (M.efficientnet (x i)))))
      else none := by
  unfold Backend.forward_graph_embeddings Backend.single_sample_gat
  rw [List.get?_map]
  by_cases h : i < batch_size
  · rw [if_pos h, List.get?_range h]
    rfl
  · rw [if_neg h]
    rw [List.get?_eq_none.mpr (by simp [Nat.not_lt.mp h])]
    rfl
